import Mathlib

/-
Shallow embedding of the Battleship game engine (ship.py, player.py, util.py)
and proofs about it.

Modelling conventions:
- Python integers are Lean `Int` (board coordinates, ship sizes, counters).
- The 10x10 board (a Python list of lists of one-character strings) is a total
  function `Fin 10 → Fin 10 → Char`; its dimensions never change in the source.
- Python list indexing `lst[i]` is modelled by `pyIdx`, which wraps negative
  indices in [-10, -1] the way Python does and fails (None) otherwise; a failed
  access models a raised IndexError.
- Methods that can raise return `Option`; `none` models an uncaught exception.
- `random.randint(0, 9)` and `random.choice` consume values from an arbitrary
  stream `Nat → Nat` (reduced mod the needed range), with an explicit cursor;
  quantifying over all streams quantifies over all possible random outcomes.
- Loops without an a-priori bound (the hunt retry loop, the target retry loop,
  the random-placement loops) take explicit fuel; exhausting fuel is a distinct
  outcome from a raised exception.
-/

namespace Battleship

/-- Error enumeration from util.py. -/
inductive Err where
  | NO_ERROR
  | SHIP_EXISTS
  | DIAGONAL
  | SPREAD_APART
  | ALREADY_SET
  | ALREADY_TRIED
  | OUT_OF_BOUNDS
deriving DecidableEq, Repr

/-- Flag enumeration (attack results) from util.py. -/
inductive Flag where
  | HIT
  | MISS
  | SUNK
deriving DecidableEq, Repr

/-- PlayerBoard.hit returns either an Error or a Flag member. -/
inductive HitResult where
  | err : Err → HitResult
  | flag : Flag → HitResult
deriving DecidableEq, Repr

/-- The 10x10 character board (`self._board`), row-major: first index is the
row `y`, second the column `x`, matching every `self._board[y][x]` access. -/
abbrev Board := Fin 10 → Fin 10 → Char

/-- Python list indexing into a length-10 list: indices 0..9 are direct,
-10..-1 wrap from the end, anything else raises (modelled as `none`). -/
def pyIdx (i : Int) : Option (Fin 10) :=
  if h : 0 ≤ i ∧ i < 10 then some ⟨i.toNat, by omega⟩
  else if h2 : -10 ≤ i ∧ i < 0 then some ⟨(i + 10).toNat, by omega⟩
  else none

/-- Read `board[y][x]` with Python indexing semantics. -/
def pyGet (b : Board) (y x : Int) : Option Char := do
  let ry ← pyIdx y
  let rx ← pyIdx x
  pure (b ry rx)

/-- Write `board[y][x] = c` with Python indexing semantics. -/
def pySet (b : Board) (y x : Int) (c : Char) : Option Board := do
  let ry ← pyIdx y
  let rx ← pyIdx x
  pure (fun i j => if i = ry ∧ j = rx then c else b i j)

/-- A coordinate is inside the 10x10 grid. -/
def inB (x y : Int) : Prop := 0 ≤ x ∧ x < 10 ∧ 0 ≤ y ∧ y < 10

instance (x y : Int) : Decidable (inB x y) := by unfold inB; infer_instance

/-- Ship object from ship.py: location list, name, size, hit count, sunk
flag, display symbol. -/
structure Ship where
  location : List (Int × Int)
  name : String
  size : Int
  hitCount : Int
  sunk : Bool
  symbol : Char
deriving DecidableEq, Repr

namespace Ship

/-- Ship.__init__. -/
def init (name : String) (size : Int) (symbol : Char) : Ship :=
  { location := [], name := name, size := size, hitCount := 0,
    sunk := false, symbol := symbol }

/-- Ship.isSet: is the coordinate already among the ship cells. -/
def isSet (s : Ship) (x y : Int) : Bool := (x, y) ∈ s.location

/-- Ship.allSet: the location list has reached the ship size. -/
def allSet (s : Ship) : Bool := (s.location.length : Int) = s.size

/-- Ship.addLocation: append the coordinate to the location list. -/
def addLocation (s : Ship) (x y : Int) : Ship :=
  { s with location := s.location ++ [(x, y)] }

/-- Ship.remove: delete the first occurrence of the coordinate, if present. -/
def remove (s : Ship) (x y : Int) : Ship :=
  if (x, y) ∈ s.location then { s with location := s.location.erase (x, y) }
  else s

/-- Ship.hitShip: if not sunk, increment the hit counter and set the sunk
flag once the counter reaches the size. -/
def hitShip (s : Ship) : Ship :=
  if ¬s.sunk then
    let hc := s.hitCount + 1
    { s with hitCount := hc, sunk := decide (hc = s.size) }
  else s

/-- Ship.isHit: when the coordinate is on the ship and the ship is not sunk,
hit the ship and report true; otherwise report false. -/
def isHit (s : Ship) (x y : Int) : Bool × Ship :=
  if (x, y) ∈ s.location ∧ ¬s.sunk then (true, s.hitShip) else (false, s)

/-- First loop of Ship.verifyLocation: scan for a cell diagonally adjacent
to (x, y), returning at the first match. -/
def diagScan (x y : Int) : List (Int × Int) → Bool
  | [] => false
  | c :: rest =>
    if (c.1 - x).natAbs = 1 ∧ (c.2 - y).natAbs = 1 then true
    else diagScan x y rest

/-- Second loop of Ship.verifyLocation: scan for a cell orthogonally adjacent
to (x, y), returning at the first match. -/
def adjScan (x y : Int) : List (Int × Int) → Bool
  | [] => false
  | c :: rest =>
    if ((c.1 - x).natAbs = 1 ∧ (c.2 - y).natAbs = 0) ∨
       ((c.2 - y).natAbs = 1 ∧ (c.1 - x).natAbs = 0) then true
    else adjScan x y rest

/-- Ship.verifyLocation: placement legality for one new cell. -/
def verifyLocation (s : Ship) (x y : Int) : Err :=
  if s.location.length = 0 then Err.NO_ERROR
  else if s.isSet x y then Err.ALREADY_SET
  else if diagScan x y s.location then Err.DIAGONAL
  else if adjScan x y s.location then Err.NO_ERROR
  else Err.SPREAD_APART

end Ship

/-- PlayerBoard from player.py: the 10x10 character grid, the fleet, and the
index of the ship currently being placed. -/
structure PState where
  board : Board
  ships : List Ship
  currentShip : Nat
deriving DecidableEq

namespace PlayerBoard

/-- PlayerBoard.__init__ followed by loading the given fleet: the board is
all 'E' and the placement cursor is at the first ship. -/
def init (fleet : List Ship) : PState :=
  { board := fun _ _ => 'E', ships := fleet, currentShip := 0 }

/-- PlayerBoard.allSunk: every ship reports sunk. -/
def allSunk (s : PState) : Bool := s.ships.all (·.sunk)

/-- Fleet scan inside PlayerBoard.hit: find the first ship reporting a hit at
(x, y); return the updated fleet and the updated ship on success. -/
def scanHit (x y : Int) : List Ship → Option (List Ship × Ship)
  | [] => none
  | sh :: rest =>
    match sh.isHit x y with
    | (true, sh2) => some (sh2 :: rest, sh2)
    | (false, _) =>
      (scanHit x y rest).map (fun p => (sh :: p.1, p.2))

/-- Loop inside PlayerBoard.hit marking every cell of a sunk ship 'X'. -/
def markSunk (b : Board) : List (Int × Int) → Option Board
  | [] => some b
  | p :: rest => do
    let b2 ← pySet b p.2 p.1 'X'
    markSunk b2 rest

/-- PlayerBoard.hit: attack resolution. Bounds check, already-tried check,
then fleet scan; the board cell becomes 'H', 'X' (whole ship, when sunk) or
'M'. -/
def hit (s : PState) (x y : Int) : Option (HitResult × PState) :=
  if x < 0 ∨ x ≥ 10 ∨ y < 0 ∨ y ≥ 10 then
    some (HitResult.err Err.OUT_OF_BOUNDS, s)
  else do
    let c ← pyGet s.board y x
    if c = 'M' ∨ c = 'H' ∨ c = 'X' then
      pure (HitResult.err Err.ALREADY_TRIED, s)
    else
      match scanHit x y s.ships with
      | some (ships2, sh2) => do
        let b2 ← pySet s.board y x 'H'
        if sh2.sunk then do
          let b3 ← markSunk b2 sh2.location
          pure (HitResult.flag Flag.SUNK, { s with board := b3, ships := ships2 })
        else
          pure (HitResult.flag Flag.HIT, { s with board := b2, ships := ships2 })
      | none => do
        let b2 ← pySet s.board y x 'M'
        pure (HitResult.flag Flag.MISS, { s with board := b2 })

/-- PlayerBoard.getCurrent: the ship under the placement cursor, or the
OUT_OF_BOUNDS error code when the cursor is outside the fleet. -/
def getCurrent (s : PState) : Ship ⊕ Err :=
  match s.ships.get? s.currentShip with
  | some sh => Sum.inl sh
  | none => Sum.inr Err.OUT_OF_BOUNDS

/-- PlayerBoard.next: advance the placement cursor, but never past the end
of the fleet. -/
def next (s : PState) : PState :=
  if s.currentShip < s.ships.length then
    { s with currentShip := s.currentShip + 1 }
  else s

/-- PlayerBoard.allSet: the placement cursor is past the last ship. -/
def allSet (s : PState) : Bool := s.currentShip = s.ships.length

/-- PlayerBoard.add: add one cell to the current ship. Delegates legality to
Ship.verifyLocation, rejects occupied board cells with SHIP_EXISTS, and on
NO_ERROR commits the cell, writes the ship symbol on the board, and advances
the cursor once the ship is complete. Accessing a missing current ship or an
out-of-range board cell models the Python exception as `none`. -/
def add (s : PState) (x y : Int) : Option (Err × PState) := do
  let cs ← s.ships.get? s.currentShip
  let e := cs.verifyLocation x y
  if e = Err.ALREADY_SET then
    pure (e, s)
  else do
    let c ← pyGet s.board y x
    if c ≠ 'E' then
      pure (Err.SHIP_EXISTS, s)
    else if e = Err.NO_ERROR then do
      let cs2 := cs.addLocation x y
      let b2 ← pySet s.board y x cs.symbol
      let s2 := { s with board := b2, ships := s.ships.set s.currentShip cs2 }
      if cs2.allSet then pure (e, next s2) else pure (e, s2)
    else
      pure (e, s)

/-- PlayerBoard.getChar: the character at the board cell. -/
def getChar (s : PState) (x y : Int) : Option Char := pyGet s.board y x

end PlayerBoard

/-- ComputerBoard from player.py: the inherited PlayerBoard state plus the
hunt flag, the orientation queue, the move history and the try counter. -/
structure CState where
  base : PState
  hunt : Bool
  orientations : List Int
  moves : List (Int × Int)
  tries : Int
deriving DecidableEq

/-- Draw stream standing for the `random` module: `randint(0, 9)` consumes
one value mod 10, `random.choice` consumes one value mod the list length. A
cursor into the stream is threaded through the computations. -/
abbrev Rand := Nat → Nat

namespace ComputerBoard

/-- ComputerBoard.__init__: hunt mode on, orientation queue [4, 3, 2, 1],
empty move history, zero tries, on top of a fresh PlayerBoard. -/
def init (fleet : List Ship) : CState :=
  { base := PlayerBoard.init fleet, hunt := true, orientations := [4, 3, 2, 1],
    moves := [], tries := 0 }

/-- ComputerBoard.setHunt: back to hunt mode and reset the orientation
queue; the move history is left untouched. -/
def setHunt (s : CState) : CState :=
  { s with hunt := true, orientations := [4, 3, 2, 1] }

/-- ComputerBoard.setTarget: switch to target mode. -/
def setTarget (s : CState) : CState := { s with hunt := false }

/-- ComputerBoard.countTries: increment the try counter. -/
def countTries (s : CState) : CState := { s with tries := s.tries + 1 }

/-- Second half of ComputerBoard.adjustOrientation: when the orientation
queue has emptied, reseed it with [4, 3, 2, 1] and either fall back to hunt
mode with a cleared history (history was down to the origin) or truncate the
history to the origin. -/
def adjustReset (s1 : CState) : CState :=
  if s1.orientations = [] then
    if s1.moves.length = 1 then
      { s1 with orientations := [4, 3, 2, 1], hunt := true, moves := [] }
    else
      { s1 with orientations := [4, 3, 2, 1], moves := s1.moves.take 1 }
  else s1

/-- ComputerBoard.adjustOrientation: in target mode pop the failed
speculative move and its orientation (popping an empty list models the
Python IndexError as `none`), then apply the queue-reset step. -/
def adjustOrientation (s : CState) : Option CState :=
  if s.hunt then some (adjustReset s)
  else if s.moves = [] ∨ s.orientations = [] then none
  else some (adjustReset { s with moves := s.moves.dropLast,
                                  orientations := s.orientations.dropLast })

/-- Result of a makeMove call: a returned coordinate with the new state and
stream cursor, a raised exception, or fuel exhaustion (the source loop not
having exited within the allotted iterations). -/
inductive MRes where
  | ok : (Int × Int) → CState → Nat → MRes
  | exn : MRes
  | out : MRes
deriving DecidableEq

/-- Hunt-mode loop of ComputerBoard.makeMove: draw a random cell each
iteration; leave the loop unconditionally once tries reached 50, else only
on a parity-matching cell. -/
def huntLoop (tries : Int) (r : Rand) (k : Nat) : Nat → Option ((Int × Int) × Nat)
  | 0 => none
  | fuel + 1 =>
    let sx : Int := (r k % 10 : Nat)
    let sy : Int := (r (k + 1) % 10 : Nat)
    if tries ≥ 50 then some ((sx, sy), k + 2)
    else if sx % 2 = sy % 2 then some ((sx, sy), k + 2)
    else huntLoop tries r (k + 2) fuel

/-- Orientation step used by the target loop of ComputerBoard.makeMove: the
code maps 1 to x+1, 2 to y+1, 3 to x-1 and 4 to y-1 (its comments claim
1:+x, 2:-x, 3:+y, 4:-y, the convention placeShip actually uses). -/
def targetStep (o : Int) (x y : Int) : Int × Int :=
  if o = 1 then (x + 1, y)
  else if o = 2 then (x, y + 1)
  else if o = 3 then (x - 1, y)
  else if o = 4 then (x, y - 1)
  else (x, y)

/-- Target-mode loop of ComputerBoard.makeMove: step from the last recorded
move along the last queued orientation, record the speculative move, return
it if in bounds, otherwise adjust the orientation and retry. Reading the
last element of an empty list models the Python IndexError. -/
def targetLoop (s : CState) : Nat → MRes
  | 0 => MRes.out
  | fuel + 1 =>
    match s.moves.getLast? with
    | none => MRes.exn
    | some (x, y) =>
      match s.orientations.getLast? with
      | none => MRes.exn
      | some o =>
        if 0 ≤ (targetStep o x y).1 ∧ (targetStep o x y).1 < 10 ∧
            0 ≤ (targetStep o x y).2 ∧ (targetStep o x y).2 < 10 then
          MRes.ok (targetStep o x y) { s with moves := s.moves ++ [targetStep o x y] } 0
        else
          match adjustOrientation { s with moves := s.moves ++ [targetStep o x y] } with
          | none => MRes.exn
          | some s3 => targetLoop s3 fuel

/-- ComputerBoard.makeMove: hunt mode draws a (usually parity-constrained)
random cell and resets the history to it; target mode walks out from the
last move along the queued orientations. -/
def makeMove (s : CState) (r : Rand) (k : Nat) (fuel : Nat) : MRes :=
  if s.hunt then
    match huntLoop s.tries r k fuel with
    | none => MRes.out
    | some (c, k2) => MRes.ok c { s with moves := [c] } k2
  else
    match targetLoop s fuel with
    | MRes.ok c s2 _ => MRes.ok c s2 k
    | other => other

end ComputerBoard

namespace ComputerBoard

/-- Index pairs (i, j) visited by the nested loops of ComputerBoard.checkPos,
in source order: i outer, j inner, both over range(0, size). -/
def cpPairs (n : Nat) : List (Nat × Nat) :=
  (List.range n).flatMap (fun i => (List.range n).map (fun j => (i, j)))

/-- One direction check inside ComputerBoard.checkPos. When the offset is out
of bounds the choice is removed (Python list.remove of a present element);
otherwise the probed cell must be empty or the whole call returns []. The
result distinguishes a raised indexing error (`none`), the early return []
(`some none`) and the surviving choice list (`some (some choices)`). -/
def cpDir (cond : Bool) (choice : Int) (cell : Option Char) (choices : List Int) :
    Option (Option (List Int)) :=
  if cond then some (some (choices.erase choice))
  else
    match cell with
    | none => none
    | some c => if c ≠ 'E' then some none else some (some choices)

/-- Nested-loop body of ComputerBoard.checkPos over the index pairs. Note the
probe for choice 2 reads board[y][x-1] for every i, exactly as the source
does (not board[y][x-i]). -/
def cpLoop (b : Board) (x y : Int) : List (Nat × Nat) → List Int → Option (List Int)
  | [], choices => some choices
  | (i, j) :: rest, choices =>
    match cpDir (x + i ≥ 10) 1 (pyGet b y (x + i)) choices with
    | none => none
    | some none => some []
    | some (some c1) =>
      match cpDir (x - i < 0) 2 (pyGet b y (x - 1)) c1 with
      | none => none
      | some none => some []
      | some (some c2) =>
        match cpDir (y + j ≥ 10) 3 (pyGet b (y + j) x) c2 with
        | none => none
        | some none => some []
        | some (some c3) =>
          match cpDir (y - j < 0) 4 (pyGet b (y - j) x) c3 with
          | none => none
          | some none => some []
          | some (some c4) => cpLoop b x y rest c4

/-- ComputerBoard.checkPos: surviving orientations for placing the current
ship with origin (x, y). Empty result means retry with a new origin. -/
def checkPos (s : CState) (x y : Int) : Option (List Int) := do
  let sh ← (match PlayerBoard.getCurrent s.base with
            | Sum.inl sh => some sh
            | Sum.inr _ => none)
  let c0 ← pyGet s.base.board y x
  if c0 ≠ 'E' then pure []
  else cpLoop s.base.board x y (cpPairs sh.size.toNat) [1, 2, 3, 4]

/-- PlayerBoard.add lifted to the computer state. -/
def addC (s : CState) (x y : Int) : Option (Err × CState) :=
  (PlayerBoard.add s.base x y).map (fun p => (p.1, { s with base := p.2 }))

/-- Orientation step used by ComputerBoard.placeShip: 1 is +x, 2 is -x,
3 is +y, 4 is -y; any other value leaves the coordinate unchanged. -/
def placeStep (o : Int) (x y : Int) : Int × Int :=
  if o = 1 then (x + 1, y)
  else if o = 2 then (x - 1, y)
  else if o = 3 then (x, y + 1)
  else if o = 4 then (x, y - 1)
  else (x, y)

/-- Cell-by-cell placement loop of ComputerBoard.placeShip: add the current
coordinate (the returned error code is discarded, as in the source), then
step along the orientation, for the captured ship size. -/
def addRun (s : CState) (x y : Int) (o : Int) : Nat → Option CState
  | 0 => some s
  | n + 1 => do
    let p ← addC s x y
    let c2 := placeStep o x y
    addRun p.2 c2.1 c2.2 o n

/-- Inner origin-search loop of ComputerBoard.placeShip: draw random origins
until checkPos yields a nonempty choice list. -/
def origLoop (s : CState) (r : Rand) : Nat → Nat → Option ((Int × Int) × List Int × Nat)
  | _, 0 => none
  | k, fuel + 1 => do
    let sx : Int := (r k % 10 : Nat)
    let sy : Int := (r (k + 1) % 10 : Nat)
    let ch ← checkPos s sx sy
    if ch = [] then origLoop s r (k + 2) fuel
    else pure ((sx, sy), ch, k + 2)

/-- ComputerBoard.placeShip with explicit fuel for both loops: until all
ships are set, search a random origin with surviving orientations, pick one
of them at random, and place the current ship cell by cell. -/
def placeShipFuel (s : CState) (r : Rand) (k : Nat) : Nat → Option (CState × Nat)
  | 0 => none
  | fuel + 1 =>
    if PlayerBoard.allSet s.base then some (s, k)
    else do
      let res ← origLoop s r k (fuel + 1)
      let ((sx, sy), ch, k2) := res
      let o := (ch.get? (r k2 % ch.length)).getD 0
      let sh ← (match PlayerBoard.getCurrent s.base with
                | Sum.inl sh => some sh
                | Sum.inr _ => none)
      let s2 ← addRun s sx sy o sh.size.toNat
      placeShipFuel s2 r (k2 + 1) fuel

end ComputerBoard

/-! Fleet construction, board invariants, and concrete scenario states used
by the theorems below. -/

/-- Placement legality as worded by the specification, rule by rule in
order: empty ship accepts anything; an already-used cell is AlreadySet; a
cell diagonally adjacent (|dx| = 1 and |dy| = 1) to any existing cell is
Diagonal, checked before adjacency; a cell orthogonally adjacent (one delta
1, the other 0) to some existing cell is accepted; anything else is
SpreadApart. -/
def verifyLocationSpec (s : Ship) (x y : Int) : Err :=
  if s.location = [] then Err.NO_ERROR
  else if (x, y) ∈ s.location then Err.ALREADY_SET
  else if ∃ c ∈ s.location, (c.1 - x).natAbs = 1 ∧ (c.2 - y).natAbs = 1 then Err.DIAGONAL
  else if ∃ c ∈ s.location,
      ((c.1 - x).natAbs = 1 ∧ c.2 = y) ∨ ((c.2 - y).natAbs = 1 ∧ c.1 = x) then Err.NO_ERROR
  else Err.SPREAD_APART

/-- Build a fleet from (name, size, symbol) records, as initFleet does:
every ship starts with an empty location list. -/
def mkFleet (specs : List (String × Int × Char)) : List Ship :=
  specs.map (fun t => Ship.init t.1 t.2.1 t.2.2)

/-- Every placed cell of every ship lies inside the 10x10 grid. -/
def shipsInBounds (s : PState) : Prop :=
  ∀ sh ∈ s.ships, ∀ p ∈ sh.location, inB p.1 p.2

/-- No two distinct ships (by fleet position) share a cell. -/
def shipsDisjoint (s : PState) : Prop :=
  ∀ i j a b, i ≠ j → s.ships.get? i = some a → s.ships.get? j = some b →
    ∀ p ∈ a.location, p ∉ b.location

/-- Every placed cell of every ship carries that ship's symbol on the board. -/
def shipsMarked (s : PState) : Prop :=
  ∀ sh ∈ s.ships, ∀ p ∈ sh.location, pyGet s.board p.2 p.1 = some sh.symbol

/-- No ship uses the empty-cell marker as its symbol. -/
def symbolsOK (s : PState) : Prop := ∀ sh ∈ s.ships, sh.symbol ≠ 'E'

/-- Placement invariant carried through ComputerBoard.placeShip. -/
def InvP (s : PState) : Prop :=
  shipsInBounds s ∧ shipsDisjoint s ∧ shipsMarked s ∧ symbolsOK s

/-- Position reached after m orientation steps from a start cell. -/
def runPos (o : Int) (c : Int × Int) : Nat → Int × Int
  | 0 => c
  | m + 1 => runPos o (ComputerBoard.placeStep o c.1 c.2) m

/-- Ship states reachable from a starting ship through the placement and
attack operations of ship.py. -/
inductive SReach (s0 : Ship) : Ship → Prop where
  | refl : SReach s0 s0
  | addL {s : Ship} (x y : Int) : SReach s0 s → SReach s0 (s.addLocation x y)
  | rem {s : Ship} (x y : Int) : SReach s0 s → SReach s0 (s.remove x y)
  | hitS {s : Ship} : SReach s0 s → SReach s0 s.hitShip
  | hitQ {s : Ship} (x y : Int) : SReach s0 s → SReach s0 (s.isHit x y).2

/-- Strategy states at which control sits with the caller, paired with the
coordinate of the hit that (last) put the strategy into target mode. The
transitions follow the caller protocol in UI.computerTurn: after every
makeMove return the caller relays the attack outcome as setTarget (Hit),
setHunt (Sunk) or adjustOrientation (Miss / AlreadyTried); countTries may be
interleaved. The ghost component becomes the returned coordinate when a move
made in hunt mode comes back a Hit. -/
inductive Reach : CState → Option (Int × Int) → Prop where
  | start (fleet : List Ship) : Reach (ComputerBoard.init fleet) none
  | moveStep {s t r k fuel c s2 k2} :
      Reach s t → ComputerBoard.makeMove s r k fuel = ComputerBoard.MRes.ok c s2 k2 →
      Reach s2 (if s.hunt then some c else t)
  | hitStep {s t r k fuel c s2 k2} :
      Reach s t → ComputerBoard.makeMove s r k fuel = ComputerBoard.MRes.ok c s2 k2 →
      Reach (ComputerBoard.setTarget s2) (if s.hunt then some c else t)
  | sunkStep {s t r k fuel c s2 k2} :
      Reach s t → ComputerBoard.makeMove s r k fuel = ComputerBoard.MRes.ok c s2 k2 →
      Reach (ComputerBoard.setHunt s2) (if s.hunt then some c else t)
  | missStep {s t r k fuel c s2 k2 s3} :
      Reach s t → ComputerBoard.makeMove s r k fuel = ComputerBoard.MRes.ok c s2 k2 →
      ComputerBoard.adjustOrientation s2 = some s3 →
      Reach s3 (if s.hunt then some c else t)
  | triesStep {s t} : Reach s t → Reach (ComputerBoard.countTries s) t

/-! Concrete scenario data. -/

/-- Single-destroyer fleet of the spec scenario. -/
def fleetD : List Ship := mkFleet [("Destroyer", 2, 'D')]

/-- Draw stream producing 5 forever: hunt mode draws (5, 5). -/
def r55 : Rand := fun _ => 5

/-- Draw stream alternating 4 and 0: hunt mode draws (4, 0). -/
def r40 : Rand := fun n => if n % 2 = 0 then 4 else 0

/-- Draw stream producing 0 forever. -/
def r0 : Rand := fun _ => 0

/-- C7 scenario, step 0: fresh single-destroyer player board. -/
def d0 : PState := PlayerBoard.init fleetD

/-- C7 scenario after add(0,0). -/
def d1 : PState := match PlayerBoard.add d0 0 0 with
  | some (_, s) => s
  | none => d0

/-- C7 scenario after the rejected add(1,1). -/
def d2 : PState := match PlayerBoard.add d1 1 1 with
  | some (_, s) => s
  | none => d1

/-- C7 scenario after add(1,0). -/
def d3 : PState := match PlayerBoard.add d2 1 0 with
  | some (_, s) => s
  | none => d2

/-- C7 scenario after attack(0,0). -/
def d4 : PState := match PlayerBoard.hit d3 0 0 with
  | some (_, s) => s
  | none => d3

/-- C7 scenario after attack(1,0). -/
def d5 : PState := match PlayerBoard.hit d4 1 0 with
  | some (_, s) => s
  | none => d4

/-- C1 trace: initial computer state. -/
def tr10 : CState := ComputerBoard.init fleetD

/-- C1 trace: state returned by the hunt-mode makeMove that drew (5, 5). -/
def tr11 : CState := { tr10 with moves := [(5, 5)] }

/-- C1 trace: state returned by the first target-mode makeMove. -/
def tr13 : CState :=
  { base := PlayerBoard.init fleetD, hunt := false, orientations := [4, 3, 2, 1],
    moves := [(5, 5), (6, 5)], tries := 0 }

/-- C1 trace: state after the caller relays the Miss via adjustOrientation. -/
def tr14 : CState :=
  { base := PlayerBoard.init fleetD, hunt := false, orientations := [4, 3, 2],
    moves := [(5, 5)], tries := 0 }

/-- C1 trace: state returned by the second target-mode makeMove. -/
def tr15 : CState := { tr14 with moves := [(5, 5), (5, 6)] }

/-- C2 trace: initial computer state. -/
def cr0 : CState := ComputerBoard.init fleetD

/-- C2 trace: state returned by the hunt-mode makeMove that drew (4, 0). -/
def cr1 : CState := { cr0 with moves := [(4, 0)] }

/-- C2 trace: state returned by the target-mode makeMove proposing (5, 0). -/
def cr2 : CState :=
  { base := PlayerBoard.init fleetD, hunt := false, orientations := [4, 3, 2, 1],
    moves := [(4, 0), (5, 0)], tries := 0 }

/-- C2 trace: state after the first Miss is relayed. -/
def cr3 : CState :=
  { base := PlayerBoard.init fleetD, hunt := false, orientations := [4, 3, 2],
    moves := [(4, 0)], tries := 0 }

/-- C2 trace: state returned by the makeMove proposing (4, 1). -/
def cr4 : CState := { cr3 with moves := [(4, 0), (4, 1)] }

/-- C2 trace: state after the second Miss is relayed. -/
def cr5 : CState :=
  { base := PlayerBoard.init fleetD, hunt := false, orientations := [4, 3],
    moves := [(4, 0)], tries := 0 }

/-- C2 trace: state returned by the makeMove proposing (3, 0). -/
def cr6 : CState := { cr5 with moves := [(4, 0), (3, 0)] }

/-- C2 trace: state after the third Miss is relayed; a single orientation is
left and the origin sits on the top edge. -/
def cr7 : CState :=
  { base := PlayerBoard.init fleetD, hunt := false, orientations := [4],
    moves := [(4, 0)], tries := 0 }

/-- Board with one already-resolved Miss cell at (0,0), for exercising the
AlreadyTried path. -/
def c5b : PState :=
  { board := fun i j => if i = 0 ∧ j = 0 then 'M' else 'E', ships := [],
    currentShip := 0 }

/-- C3 witness scenario: fresh computer board with the single destroyer. -/
def p0 : CState := ComputerBoard.init fleetD

/-- C3 witness scenario: final state of the successful placement run driven
by the all-zero draw stream. -/
def c3wState : CState := match ComputerBoard.placeShipFuel p0 r0 0 5 with
  | some p => p.1
  | none => p0

/-- C3 counterexample scenario: two size-2 ships whose display symbol is the
empty-cell marker 'E'. -/
def q0 : CState := ComputerBoard.init (mkFleet [("A", 2, 'E'), ("B", 2, 'E')])

/-- C3 counterexample scenario: final state of the placement run driven by
the all-zero draw stream. -/
def q3State : CState := match ComputerBoard.placeShipFuel q0 r0 0 5 with
  | some p => p.1
  | none => q0

/-! Theorems. -/

theorem diagScan_iff (x y : Int) (l : List (Int × Int)) :
    Ship.diagScan x y l = true ↔
      ∃ c ∈ l, (c.1 - x).natAbs = 1 ∧ (c.2 - y).natAbs = 1 := by
  induction l with
  | nil => simp [Ship.diagScan]
  | cons c rest ih =>
    by_cases h : (c.1 - x).natAbs = 1 ∧ (c.2 - y).natAbs = 1
    · simp [Ship.diagScan, h]
    · simp only [Ship.diagScan, if_neg h, ih, List.mem_cons]
      constructor
      · rintro ⟨a, ha, hp⟩; exact ⟨a, Or.inr ha, hp⟩
      · rintro ⟨a, ha | ha, hp⟩
        · exact absurd (ha ▸ hp) h
        · exact ⟨a, ha, hp⟩

theorem adjScan_iff (x y : Int) (l : List (Int × Int)) :
    Ship.adjScan x y l = true ↔
      ∃ c ∈ l, ((c.1 - x).natAbs = 1 ∧ (c.2 - y).natAbs = 0) ∨
        ((c.2 - y).natAbs = 1 ∧ (c.1 - x).natAbs = 0) := by
  induction l with
  | nil => simp [Ship.adjScan]
  | cons c rest ih =>
    by_cases h : ((c.1 - x).natAbs = 1 ∧ (c.2 - y).natAbs = 0) ∨
        ((c.2 - y).natAbs = 1 ∧ (c.1 - x).natAbs = 0)
    · simp only [Ship.adjScan, if_pos h, true_iff]
      exact ⟨c, List.mem_cons_self c rest, h⟩
    · simp only [Ship.adjScan, if_neg h, ih, List.mem_cons]
      constructor
      · rintro ⟨a, ha, hp⟩; exact ⟨a, Or.inr ha, hp⟩
      · rintro ⟨a, ha | ha, hp⟩
        · exact absurd (ha ▸ hp) h
        · exact ⟨a, ha, hp⟩

/-- C6: Ship.verifyLocation applies its rules in the specified order: Ok on
an empty ship; else AlreadySet on a repeated cell; else Diagonal when the
cell is diagonally adjacent to any existing cell, with this check made
before the orthogonal-adjacency check; else Ok when orthogonally adjacent
to some cell; else SpreadApart. -/
theorem verifyLocation_follows_spec (s : Ship) (x y : Int) :
    s.verifyLocation x y = verifyLocationSpec s x y := by
  unfold Ship.verifyLocation verifyLocationSpec Ship.isSet
  by_cases h0 : s.location = []
  · simp [h0]
  · rw [if_neg (by simpa using h0), if_neg h0]
    by_cases h1 : (x, y) ∈ s.location
    · simp [h1]
    · rw [if_neg (by simpa using h1), if_neg h1]
      by_cases h2 : ∃ c ∈ s.location, (c.1 - x).natAbs = 1 ∧ (c.2 - y).natAbs = 1
      · rw [if_pos ((diagScan_iff x y s.location).mpr h2), if_pos h2]
      · rw [if_neg (fun hb => h2 ((diagScan_iff x y s.location).mp hb)), if_neg h2]
        by_cases h3 : ∃ c ∈ s.location,
            ((c.1 - x).natAbs = 1 ∧ c.2 = y) ∨ ((c.2 - y).natAbs = 1 ∧ c.1 = x)
        · rw [if_pos, if_pos h3]
          rw [adjScan_iff]
          obtain ⟨c, hc, hp⟩ := h3
          refine ⟨c, hc, ?_⟩
          rcases hp with ⟨ha, hb⟩ | ⟨ha, hb⟩
          · exact Or.inl ⟨ha, by omega⟩
          · exact Or.inr ⟨ha, by omega⟩
        · rw [if_neg, if_neg h3]
          intro hb
          obtain ⟨c, hc, hp⟩ := (adjScan_iff x y s.location).mp hb
          refine h3 ⟨c, hc, ?_⟩
          rcases hp with ⟨ha, hb2⟩ | ⟨ha, hb2⟩
          · exact Or.inl ⟨ha, by omega⟩
          · exact Or.inr ⟨ha, by omega⟩

/-- C7: on an empty board with the single fleet entry ("Destroyer", 2, 'D'),
add(0,0) is Ok, add(1,1) is Diagonal, add(1,0) is Ok and completes
placement, attack(0,0) is Hit, attack(1,0) is Sunk, and allSunk then holds. -/
theorem destroyer_scenario :
    PlayerBoard.add d0 0 0 = some (Err.NO_ERROR, d1) ∧
    PlayerBoard.add d1 1 1 = some (Err.DIAGONAL, d2) ∧
    PlayerBoard.add d2 1 0 = some (Err.NO_ERROR, d3) ∧
    PlayerBoard.allSet d3 = true ∧
    PlayerBoard.hit d3 0 0 = some (HitResult.flag Flag.HIT, d4) ∧
    PlayerBoard.hit d4 1 0 = some (HitResult.flag Flag.SUNK, d5) ∧
    PlayerBoard.allSunk d5 = true := by
  refine ⟨by decide, by decide, by decide, by decide, by decide, by decide, by decide⟩

/-- C10: when the placement cursor equals the fleet length (allSet), the
getCurrent accessor returns the OUT_OF_BOUNDS error code instead of a ship
and instead of raising. -/
theorem getCurrent_out_of_bounds (s : PState)
    (h : s.currentShip = s.ships.length) :
    PlayerBoard.getCurrent s = Sum.inr Err.OUT_OF_BOUNDS := by
  unfold PlayerBoard.getCurrent
  rw [List.get?_eq_none.mpr (by omega)]

/-- Witness for C10 at a concrete empty-fleet board. -/
theorem getCurrent_out_of_bounds_witness :
    (PlayerBoard.init []).currentShip = (PlayerBoard.init []).ships.length ∧
    PlayerBoard.getCurrent (PlayerBoard.init []) = Sum.inr Err.OUT_OF_BOUNDS :=
  ⟨by decide, getCurrent_out_of_bounds (PlayerBoard.init []) (by decide)⟩

/-- C1: evaluation of the exact spec scenario. The hunt move returns (5,5);
after the Hit the first target proposal is (6,5); after that Miss is relayed
the next proposal is (5,6) — the code maps the second queued orientation to
y+1, not to x-1 as its own comments (and placeShip's convention) state — and
not (4,5) as the specification claims. -/
theorem target_second_proposal :
    ComputerBoard.makeMove tr10 r55 0 10 = ComputerBoard.MRes.ok (5, 5) tr11 2 ∧
    ComputerBoard.makeMove (ComputerBoard.setTarget tr11) r55 0 10 =
      ComputerBoard.MRes.ok (6, 5) tr13 0 ∧
    ComputerBoard.adjustOrientation tr13 = some tr14 ∧
    ComputerBoard.makeMove tr14 r55 0 10 = ComputerBoard.MRes.ok (5, 6) tr15 0 ∧
    ((5 : Int), (6 : Int)) ≠ ((4 : Int), (5 : Int)) := by
  refine ⟨by decide, by decide, by decide, by decide, by decide⟩

/-- C2: makeMove can raise. After a Hit at (4,0) and Misses at (5,0), (4,1)
and (3,0), the one remaining orientation steps to (4,-1), out of bounds; the
internal adjustOrientation falls back to hunt mode and clears the history,
and the still-running target loop then indexes the empty history:
an IndexError, modelled as MRes.exn, instead of a returned coordinate. -/
theorem makeMove_raises :
    ComputerBoard.makeMove cr0 r40 0 10 = ComputerBoard.MRes.ok (4, 0) cr1 2 ∧
    ComputerBoard.makeMove (ComputerBoard.setTarget cr1) r40 0 10 =
      ComputerBoard.MRes.ok (5, 0) cr2 0 ∧
    ComputerBoard.adjustOrientation cr2 = some cr3 ∧
    ComputerBoard.makeMove cr3 r40 0 10 = ComputerBoard.MRes.ok (4, 1) cr4 0 ∧
    ComputerBoard.adjustOrientation cr4 = some cr5 ∧
    ComputerBoard.makeMove cr5 r40 0 10 = ComputerBoard.MRes.ok (3, 0) cr6 0 ∧
    ComputerBoard.adjustOrientation cr6 = some cr7 ∧
    ComputerBoard.makeMove cr7 r40 0 10 = ComputerBoard.MRes.exn := by
  refine ⟨by decide, by decide, by decide, by decide, by decide, by decide,
    by decide, by decide⟩

theorem huntLoop_parity {tries : Int} {r : Rand} {k fuel : Nat}
    {c : Int × Int} {k2 : Nat} (hlt : tries < 50)
    (h : ComputerBoard.huntLoop tries r k fuel = some (c, k2)) :
    c.1 % 2 = c.2 % 2 := by
  induction fuel generalizing k with
  | zero => simp [ComputerBoard.huntLoop] at h
  | succ n ih =>
    simp only [ComputerBoard.huntLoop] at h
    rw [if_neg (by omega)] at h
    by_cases hp : ((r k % 10 : Nat) : Int) % 2 = ((r (k + 1) % 10 : Nat) : Int) % 2
    · rw [if_pos hp] at h
      simp only [Option.some.injEq, Prod.mk.injEq] at h
      obtain ⟨rfl, -⟩ := h
      exact hp
    · rw [if_neg hp] at h
      exact ih h

/-- C8: every hunt-mode makeMove made while the try counter is below 50
returns a coordinate on the checkerboard parity (x mod 2 equals y mod 2);
only once the counter reaches the bound can the loop fall back to an
unconstrained cell. -/
theorem huntMove_parity (s : CState) (r : Rand) (k fuel : Nat) (c : Int × Int)
    (s2 : CState) (k2 : Nat) (hh : s.hunt = true) (ht : s.tries < 50)
    (h : ComputerBoard.makeMove s r k fuel = ComputerBoard.MRes.ok c s2 k2) :
    c.1 % 2 = c.2 % 2 := by
  unfold ComputerBoard.makeMove at h
  rw [hh] at h
  simp only [if_true] at h
  cases hl : ComputerBoard.huntLoop s.tries r k fuel with
  | none => rw [hl] at h; cases h
  | some p =>
    rw [hl] at h
    cases h
    exact huntLoop_parity ht hl

/-- Witness for C8 at the concrete hunt move drawing (5, 5). -/
theorem huntMove_parity_witness :
    tr10.hunt = true ∧ tr10.tries < 50 ∧
    ComputerBoard.makeMove tr10 r55 0 10 = ComputerBoard.MRes.ok (5, 5) tr11 2 ∧
    (5 : Int) % 2 = (5 : Int) % 2 :=
  ⟨by decide, by decide, by decide,
    huntMove_parity tr10 r55 0 10 (5, 5) tr11 2 (by decide) (by decide) (by decide)⟩

theorem head_append_ne_nil {α : Type} {l : List α} (l2 : List α) (h : l ≠ []) :
    (l ++ l2).head? = l.head? := by
  cases l with
  | nil => exact absurd rfl h
  | cons a rest => rfl

theorem head_dropLast_of_two_le {α : Type} {l : List α} (h : 2 ≤ l.length) :
    l.dropLast.head? = l.head? ∧ l.dropLast ≠ [] := by
  match l, h with
  | a :: b :: rest, _ => simp

theorem head_take_one {α : Type} {l : List α} (h : l ≠ []) :
    (l.take 1).head? = l.head? ∧ l.take 1 ≠ [] := by
  cases l with
  | nil => exact absurd rfl h
  | cons a rest => simp

theorem targetLoop_nil_not_ok {s : CState} (hm : s.moves = []) (fuel : Nat)
    {c : Int × Int} {s2 : CState} {j : Nat} :
    ComputerBoard.targetLoop s fuel ≠ ComputerBoard.MRes.ok c s2 j := by
  cases fuel with
  | zero => simp [ComputerBoard.targetLoop]
  | succ n =>
    unfold ComputerBoard.targetLoop
    rw [hm]
    simp

theorem adjustReset_shape {s1 : CState} (hm : s1.moves ≠ []) :
    ((ComputerBoard.adjustReset s1).hunt = true ∧
        (ComputerBoard.adjustReset s1).moves = []) ∨
      ((ComputerBoard.adjustReset s1).hunt = s1.hunt ∧
        (ComputerBoard.adjustReset s1).moves ≠ [] ∧
        (ComputerBoard.adjustReset s1).moves.head? = s1.moves.head?) := by
  unfold ComputerBoard.adjustReset
  by_cases ho : s1.orientations = []
  · rw [if_pos ho]
    by_cases hl : s1.moves.length = 1
    · rw [if_pos hl]; exact Or.inl ⟨rfl, rfl⟩
    · rw [if_neg hl]
      exact Or.inr ⟨rfl, (head_take_one hm).2, (head_take_one hm).1⟩
  · rw [if_neg ho]
    exact Or.inr ⟨rfl, hm, rfl⟩

theorem adjustOrientation_shape {s s3 : CState} (hm : s.moves ≠ [])
    (hlen : s.hunt = false → 2 ≤ s.moves.length)
    (ha : ComputerBoard.adjustOrientation s = some s3) :
    (s3.hunt = true ∧ s3.moves = []) ∨
      (s3.hunt = s.hunt ∧ s3.moves ≠ [] ∧
        s3.moves.head? = s.moves.head?) := by
  unfold ComputerBoard.adjustOrientation at ha
  by_cases hh : s.hunt = true
  · rw [if_pos hh] at ha
    cases ha
    exact adjustReset_shape hm
  · rw [if_neg hh] at ha
    by_cases hme : s.moves = [] ∨ s.orientations = []
    · rw [if_pos hme] at ha; cases ha
    · rw [if_neg hme] at ha
      cases ha
      have hdl := head_dropLast_of_two_le (hlen (by revert hh; cases s.hunt <;> simp))
      have hmid : ({ s with moves := s.moves.dropLast, orientations := s.orientations.dropLast } : CState).moves ≠ [] := hdl.2
      rcases adjustReset_shape hmid with hcase | hcase
      · exact Or.inl hcase
      · exact Or.inr ⟨hcase.1, hcase.2.1, hcase.2.2.trans hdl.1⟩

theorem targetLoop_ok {fuel : Nat} {s s2 : CState} {c : Int × Int} {j : Nat}
    (h : ComputerBoard.targetLoop s fuel = ComputerBoard.MRes.ok c s2 j) :
    s2.hunt = s.hunt ∧ s2.moves.head? = s.moves.head? ∧ 2 ≤ s2.moves.length := by
  induction fuel generalizing s with
  | zero => simp [ComputerBoard.targetLoop] at h
  | succ n ih =>
    unfold ComputerBoard.targetLoop at h
    cases hl : s.moves.getLast? with
    | none => rw [hl] at h; cases h
    | some xy =>
      rw [hl] at h
      cases ho : s.orientations.getLast? with
      | none => rw [ho] at h; cases h
      | some o =>
        rw [ho] at h
        have hmne : s.moves ≠ [] := by
          intro hnil; rw [hnil] at hl; cases hl
        obtain ⟨x, y⟩ := xy
        dsimp only [] at h
        by_cases hb : 0 ≤ (ComputerBoard.targetStep o x y).1 ∧
            (ComputerBoard.targetStep o x y).1 < 10 ∧
            0 ≤ (ComputerBoard.targetStep o x y).2 ∧
            (ComputerBoard.targetStep o x y).2 < 10
        · rw [if_pos hb] at h
          cases h
          refine ⟨rfl, head_append_ne_nil _ hmne, ?_⟩
          have h1 : 1 ≤ s.moves.length := List.length_pos.mpr hmne
          simp only [List.length_append, List.length_cons, List.length_nil]
          omega
        · rw [if_neg hb] at h
          cases ha : ComputerBoard.adjustOrientation
              { s with moves := s.moves ++ [ComputerBoard.targetStep o x y] } with
          | none => rw [ha] at h; cases h
          | some s3 =>
            rw [ha] at h
            have h3 := ih h
            have hm2 : ({ s with moves := s.moves ++ [ComputerBoard.targetStep o x y] } : CState).moves ≠ [] := by
              simp
            have hlen2 : ({ s with moves := s.moves ++ [ComputerBoard.targetStep o x y] } : CState).hunt = false → 2 ≤ ({ s with moves := s.moves ++ [ComputerBoard.targetStep o x y] } : CState).moves.length := by
              intro hf
              have h1 : 1 ≤ s.moves.length := List.length_pos.mpr hmne
              simp only [List.length_append, List.length_cons, List.length_nil]
              omega
            rcases adjustOrientation_shape hm2 hlen2 ha with ⟨hh1, hm3⟩ | ⟨hh1, hm3, hh3⟩
            · exact absurd h (targetLoop_nil_not_ok hm3 n)
            · refine ⟨h3.1.trans hh1, ?_, h3.2.2⟩
              rw [h3.2.1, hh3]
              exact head_append_ne_nil _ hmne

theorem makeMove_hunt_ok {s : CState} {r : Rand} {k fuel : Nat}
    {c : Int × Int} {s2 : CState} {k2 : Nat} (hh : s.hunt = true)
    (h : ComputerBoard.makeMove s r k fuel = ComputerBoard.MRes.ok c s2 k2) :
    s2 = { s with moves := [c] } := by
  unfold ComputerBoard.makeMove at h
  rw [hh] at h
  simp only [if_true] at h
  cases hl : ComputerBoard.huntLoop s.tries r k fuel with
  | none => rw [hl] at h; cases h
  | some p =>
    obtain ⟨pc, pk⟩ := p
    rw [hl] at h
    dsimp only [] at h
    cases h
    rw [hh]

theorem makeMove_target_ok {s : CState} {r : Rand} {k fuel : Nat}
    {c : Int × Int} {s2 : CState} {k2 : Nat} (hh : s.hunt = false)
    (h : ComputerBoard.makeMove s r k fuel = ComputerBoard.MRes.ok c s2 k2) :
    ∃ j, ComputerBoard.targetLoop s fuel = ComputerBoard.MRes.ok c s2 j := by
  unfold ComputerBoard.makeMove at h
  rw [hh] at h
  simp only [Bool.false_eq_true, if_false] at h
  cases ht : ComputerBoard.targetLoop s fuel with
  | ok c3 s3 j3 =>
    rw [ht] at h
    cases h
    exact ⟨j3, rfl⟩
  | exn => rw [ht] at h; cases h
  | out => rw [ht] at h; cases h

/-- C4 (amended): at every state at which control is back with the caller,
if the strategy is in Target mode then the move history is nonempty and its
first element is the coordinate of the hit that put the strategy into
Target mode (the ghost component of the reachability relation). -/
theorem target_history_invariant {s : CState} {t : Option (Int × Int)}
    (h : Reach s t) (hh : s.hunt = false) :
    s.moves ≠ [] ∧ s.moves.head? = t := by
  induction h with
  | start fleet => simp [ComputerBoard.init] at hh
  | @moveStep s0 t0 r k fuel c s2 k2 hr hm ih =>
    by_cases hs0 : s0.hunt = true
    · have h2 := makeMove_hunt_ok hs0 hm
      subst h2
      simp only [] at hh
      rw [hs0] at hh
      cases hh
    · have hs0f : s0.hunt = false := by revert hs0; cases s0.hunt <;> simp
      obtain ⟨j, ht⟩ := makeMove_target_ok hs0f hm
      have h3 := targetLoop_ok ht
      have ihr := ih hs0f
      rw [if_neg hs0]
      refine ⟨List.length_pos.mp (by omega), ?_⟩
      rw [h3.2.1, ihr.2]
  | @hitStep s0 t0 r k fuel c s2 k2 hr hm ih =>
    by_cases hs0 : s0.hunt = true
    · have h2 := makeMove_hunt_ok hs0 hm
      subst h2
      rw [if_pos hs0]
      exact ⟨by simp [ComputerBoard.setTarget], by simp [ComputerBoard.setTarget]⟩
    · have hs0f : s0.hunt = false := by revert hs0; cases s0.hunt <;> simp
      obtain ⟨j, ht⟩ := makeMove_target_ok hs0f hm
      have h3 := targetLoop_ok ht
      have ihr := ih hs0f
      rw [if_neg hs0]
      refine ⟨?_, ?_⟩
      · show s2.moves ≠ []
        exact List.length_pos.mp (by omega)
      · show s2.moves.head? = t0
        rw [h3.2.1, ihr.2]
  | @sunkStep s0 t0 r k fuel c s2 k2 hr hm ih =>
    simp [ComputerBoard.setHunt] at hh
  | @missStep s0 t0 r k fuel c s2 k2 s3 hr hm ha ih =>
    by_cases hs0 : s0.hunt = true
    · have h2 := makeMove_hunt_ok hs0 hm
      subst h2
      have hmne : ({ s0 with moves := [c] } : CState).moves ≠ [] := by simp
      have hlenf : ({ s0 with moves := [c] } : CState).hunt = false → 2 ≤ ({ s0 with moves := [c] } : CState).moves.length := by
        intro hf
        simp only [] at hf
        rw [hs0] at hf
        cases hf
      rcases adjustOrientation_shape hmne hlenf ha with ⟨hh1, hm3⟩ | ⟨hh1, hm3, hh3⟩
      · rw [hh1] at hh; cases hh
      · rw [hh1] at hh
        simp only [] at hh
        rw [hs0] at hh
        cases hh
    · have hs0f : s0.hunt = false := by revert hs0; cases s0.hunt <;> simp
      obtain ⟨j, ht⟩ := makeMove_target_ok hs0f hm
      have h3 := targetLoop_ok ht
      have ihr := ih hs0f
      have hmne : s2.moves ≠ [] := List.length_pos.mp (by omega)
      rcases adjustOrientation_shape hmne (fun _ => h3.2.2) ha with ⟨hh1, hm3⟩ | ⟨hh1, hm3, hh3⟩
      · rw [hh1] at hh; cases hh
      · rw [if_neg hs0]
        refine ⟨hm3, ?_⟩
        rw [hh3, h3.2.1, ihr.2]
  | @triesStep s0 t0 hr ih =>
    exact ih hh

/-- C4 counterexample: right after a hunt-mode makeMove returns, the mode is
still Hunt while the move history already holds the returned coordinate, so
the claimed "in Hunt mode the move history is empty" fails at this
caller-visible point. -/
theorem hunt_history_not_empty :
    Reach cr1 (some (4, 0)) ∧ cr1.hunt = true ∧ cr1.moves ≠ [] := by
  refine ⟨?_, by decide, by decide⟩
  have h0 : Reach cr0 none := Reach.start fleetD
  have h1 := Reach.moveStep h0
    (show ComputerBoard.makeMove cr0 r40 0 10 = ComputerBoard.MRes.ok (4, 0) cr1 2 by decide)
  exact h1

/-- Witness for C4 at the target state entered after the Hit at (4, 0). -/
theorem target_history_invariant_witness :
    Reach (ComputerBoard.setTarget cr1) (some (4, 0)) ∧
    (ComputerBoard.setTarget cr1).hunt = false ∧
    ((ComputerBoard.setTarget cr1).moves ≠ [] ∧
      (ComputerBoard.setTarget cr1).moves.head? = some (4, 0)) := by
  have h0 : Reach cr0 none := Reach.start fleetD
  have h1 : Reach (ComputerBoard.setTarget cr1) (some (4, 0)) := by
    have h2 := Reach.hitStep h0
      (show ComputerBoard.makeMove cr0 r40 0 10 = ComputerBoard.MRes.ok (4, 0) cr1 2 by decide)
    exact h2
  exact ⟨h1, by decide, target_history_invariant h1 (by decide)⟩

theorem pyIdx_of_inb {i : Int} (h0 : 0 ≤ i) (h1 : i < 10) :
    pyIdx i = some ⟨i.toNat, by omega⟩ := by
  unfold pyIdx
  rw [dif_pos ⟨h0, h1⟩]

theorem pyGet_eq {b : Board} {y x : Int} {ry rx : Fin 10}
    (hy : pyIdx y = some ry) (hx : pyIdx x = some rx) :
    pyGet b y x = some (b ry rx) := by
  unfold pyGet
  rw [hy, hx]
  rfl

theorem pySet_eq {b : Board} {y x : Int} {ry rx : Fin 10} {c : Char}
    (hy : pyIdx y = some ry) (hx : pyIdx x = some rx) :
    pySet b y x c = some (fun i j => if i = ry ∧ j = rx then c else b i j) := by
  unfold pySet
  rw [hy, hx]
  rfl

theorem scanHit_mem {x y : Int} :
    ∀ {ships ships2 : List Ship} {sh2 : Ship},
      PlayerBoard.scanHit x y ships = some (ships2, sh2) → (x, y) ∈ sh2.location := by
  intro ships
  induction ships with
  | nil => intro ships2 sh2 h; cases h
  | cons sh rest ih =>
    intro ships2 sh2 h
    unfold PlayerBoard.scanHit at h
    cases hih : sh.isHit x y with
    | mk fst snd =>
      rw [hih] at h
      cases fst with
      | true =>
        dsimp only [] at h
        cases h
        unfold Ship.isHit at hih
        by_cases hc : (x, y) ∈ sh.location ∧ ¬sh.sunk = true
        · rw [if_pos hc] at hih
          cases hih
          unfold Ship.hitShip
          by_cases hs : ¬sh.sunk = true
          · rw [if_pos hs]; exact hc.1
          · rw [if_neg hs]; exact hc.1
        · rw [if_neg hc] at hih; cases hih
      | false =>
        dsimp only [] at h
        cases hrest : PlayerBoard.scanHit x y rest with
        | none => rw [hrest] at h; cases h
        | some p =>
          rw [hrest] at h
          cases h
          exact ih hrest

theorem markSunk_keeps_X {ry rx : Fin 10} :
    ∀ {l : List (Int × Int)} {b b2 : Board}, b ry rx = 'X' →
      PlayerBoard.markSunk b l = some b2 → b2 ry rx = 'X' := by
  intro l
  induction l with
  | nil =>
    intro b b2 hb h
    unfold PlayerBoard.markSunk at h
    cases h
    exact hb
  | cons p rest ih =>
    intro b b2 hb h
    unfold PlayerBoard.markSunk at h
    cases hset : pySet b p.2 p.1 'X' with
    | none => rw [hset] at h; cases h
    | some bmid =>
      rw [hset] at h
      simp only [Option.pure_def, Option.bind_eq_bind, Option.some_bind] at h
      refine ih ?_ h
      unfold pySet at hset
      cases hpy : pyIdx p.2 with
      | none => rw [hpy] at hset; cases hset
      | some py =>
        rw [hpy] at hset
        cases hpx : pyIdx p.1 with
        | none => rw [hpx] at hset; cases hset
        | some px =>
          rw [hpx] at hset
          simp only [Option.pure_def, Option.bind_eq_bind, Option.some_bind] at hset
          cases hset
          by_cases he : ry = py ∧ rx = px
          · simp [he]
          · simp only [he, if_false]
            exact hb

theorem markSunk_sets_X {y x : Int} {ry rx : Fin 10}
    (hy : pyIdx y = some ry) (hx : pyIdx x = some rx) :
    ∀ {l : List (Int × Int)} {b b2 : Board}, (x, y) ∈ l →
      PlayerBoard.markSunk b l = some b2 → b2 ry rx = 'X' := by
  intro l
  induction l with
  | nil => intro b b2 hm h; cases hm
  | cons p rest ih =>
    intro b b2 hm h
    unfold PlayerBoard.markSunk at h
    cases hset : pySet b p.2 p.1 'X' with
    | none => rw [hset] at h; cases h
    | some bmid =>
      rw [hset] at h
      simp only [Option.pure_def, Option.bind_eq_bind, Option.some_bind] at h
      rcases List.mem_cons.mp hm with heq | hmr
      · subst heq
        refine markSunk_keeps_X ?_ h
        rw [pySet_eq hy hx] at hset
        cases hset
        simp
      · exact ih hmr h

theorem hit_already_tried {s : PState} {x y : Int} {ch : Char}
    (hb : inB x y) (hget : pyGet s.board y x = some ch)
    (hm : ch = 'M' ∨ ch = 'H' ∨ ch = 'X') :
    PlayerBoard.hit s x y = some (HitResult.err Err.ALREADY_TRIED, s) := by
  obtain ⟨hx0, hx1, hy0, hy1⟩ := hb
  unfold PlayerBoard.hit
  rw [if_neg (by omega)]
  rw [hget]
  simp only [Option.pure_def, Option.bind_eq_bind, Option.some_bind]
  rw [if_pos hm]

theorem hit_marks_cell {s : PState} {x y : Int} {r1 : HitResult} {s1 : PState}
    (hb : inB x y) (h : PlayerBoard.hit s x y = some (r1, s1)) :
    ∃ ch, pyGet s1.board y x = some ch ∧ (ch = 'M' ∨ ch = 'H' ∨ ch = 'X') := by
  obtain ⟨hx0, hx1, hy0, hy1⟩ := hb
  have hpy : pyIdx y = some ⟨y.toNat, by omega⟩ := pyIdx_of_inb hy0 hy1
  have hpx : pyIdx x = some ⟨x.toNat, by omega⟩ := pyIdx_of_inb hx0 hx1
  unfold PlayerBoard.hit at h
  rw [if_neg (by omega)] at h
  rw [pyGet_eq hpy hpx] at h
  simp only [Option.pure_def, Option.bind_eq_bind, Option.some_bind] at h
  by_cases hmk : s.board ⟨y.toNat, by omega⟩ ⟨x.toNat, by omega⟩ = 'M' ∨
      s.board ⟨y.toNat, by omega⟩ ⟨x.toNat, by omega⟩ = 'H' ∨
      s.board ⟨y.toNat, by omega⟩ ⟨x.toNat, by omega⟩ = 'X'
  · rw [if_pos hmk] at h
    cases h
    exact ⟨_, pyGet_eq hpy hpx, hmk⟩
  · rw [if_neg hmk] at h
    cases hscan : PlayerBoard.scanHit x y s.ships with
    | some q =>
      obtain ⟨ships2, sh2⟩ := q
      rw [hscan] at h
      rw [pySet_eq hpy hpx] at h
      simp only [Option.pure_def, Option.bind_eq_bind, Option.some_bind] at h
      by_cases hsunk : sh2.sunk = true
      · rw [if_pos hsunk] at h
        cases hms : PlayerBoard.markSunk
            (fun i j => if i = ⟨y.toNat, by omega⟩ ∧ j = ⟨x.toNat, by omega⟩ then 'H'
              else s.board i j) sh2.location with
        | none => rw [hms] at h; cases h
        | some b3 =>
          rw [hms] at h
          simp only [Option.pure_def, Option.bind_eq_bind, Option.some_bind] at h
          cases h
          refine ⟨'X', ?_, by simp⟩
          have hmem := scanHit_mem hscan
          have hx3 := markSunk_sets_X hpy hpx hmem hms
          rw [pyGet_eq hpy hpx]
          exact congrArg some hx3
      · rw [if_neg hsunk] at h
        cases h
        refine ⟨'H', ?_, by simp⟩
        rw [pyGet_eq hpy hpx]
        simp
    | none =>
      rw [hscan] at h
      dsimp only [] at h
      cases hset : pySet s.board y x 'M' with
      | none =>
        rw [pySet_eq hpy hpx] at hset
        cases hset
      | some bm =>
        rw [hset] at h
        simp only [Option.pure_def, Option.bind_eq_bind, Option.some_bind] at h
        cases h
        rw [pySet_eq hpy hpx] at hset
        cases hset
        refine ⟨'M', ?_, by simp⟩
        rw [pyGet_eq hpy hpx]
        simp

/-- C5: attacking an in-bounds cell already marked Miss, Hit or SunkMarker
returns ALREADY_TRIED with no state change, and attacking the same in-bounds
cell twice always returns ALREADY_TRIED the second time, again with no state
change beyond the first attack. -/
theorem attack_idempotent_rejection (s : PState) (x y : Int) (hb : inB x y) :
    (∀ ch, pyGet s.board y x = some ch → ch = 'M' ∨ ch = 'H' ∨ ch = 'X' →
      PlayerBoard.hit s x y = some (HitResult.err Err.ALREADY_TRIED, s)) ∧
    (∀ r1 s1, PlayerBoard.hit s x y = some (r1, s1) →
      PlayerBoard.hit s1 x y = some (HitResult.err Err.ALREADY_TRIED, s1)) := by
  constructor
  · intro ch hget hm
    exact hit_already_tried hb hget hm
  · intro r1 s1 h
    obtain ⟨ch, hget, hm⟩ := hit_marks_cell hb h
    exact hit_already_tried hb hget hm

/-- Witness for C5 on a board whose (0,0) cell is an already-recorded Miss. -/
theorem attack_idempotent_rejection_witness :
    inB 0 0 ∧
    ((∀ ch, pyGet c5b.board 0 0 = some ch → ch = 'M' ∨ ch = 'H' ∨ ch = 'X' →
      PlayerBoard.hit c5b 0 0 = some (HitResult.err Err.ALREADY_TRIED, c5b)) ∧
    (∀ r1 s1, PlayerBoard.hit c5b 0 0 = some (r1, s1) →
      PlayerBoard.hit s1 0 0 = some (HitResult.err Err.ALREADY_TRIED, s1))) :=
  ⟨by decide, attack_idempotent_rejection c5b 0 0 (by decide)⟩

theorem hitShip_inv {sz : Int} {s : Ship}
    (ih : s.size = sz ∧ s.hitCount ≤ s.size ∧ (s.sunk = true ↔ s.hitCount = s.size)) :
    s.hitShip.size = sz ∧ s.hitShip.hitCount ≤ s.hitShip.size ∧
      (s.hitShip.sunk = true ↔ s.hitShip.hitCount = s.hitShip.size) := by
  obtain ⟨ihs, ihle, ihiff⟩ := ih
  unfold Ship.hitShip
  by_cases hs : ¬s.sunk = true
  · rw [if_pos hs]
    have hne : s.hitCount ≠ s.size := fun he => hs (ihiff.mpr he)
    dsimp only []
    refine ⟨ihs, by omega, by simp⟩
  · rw [if_neg hs]
    exact ⟨ihs, ihle, ihiff⟩

theorem isHit_inv {sz : Int} {s : Ship} (x y : Int)
    (ih : s.size = sz ∧ s.hitCount ≤ s.size ∧ (s.sunk = true ↔ s.hitCount = s.size)) :
    (s.isHit x y).2.size = sz ∧ (s.isHit x y).2.hitCount ≤ (s.isHit x y).2.size ∧
      ((s.isHit x y).2.sunk = true ↔ (s.isHit x y).2.hitCount = (s.isHit x y).2.size) := by
  unfold Ship.isHit
  by_cases hc : (x, y) ∈ s.location ∧ ¬s.sunk = true
  · rw [if_pos hc]
    exact hitShip_inv ih
  · rw [if_neg hc]
    exact ih

theorem ship_invariant_aux {n : String} {sz : Int} {sym : Char} {s : Ship}
    (hsz : 1 ≤ sz) (h : SReach (Ship.init n sz sym) s) :
    s.size = sz ∧ s.hitCount ≤ s.size ∧ (s.sunk = true ↔ s.hitCount = s.size) := by
  induction h with
  | refl =>
    refine ⟨rfl, ?_, ?_⟩
    · show (0 : Int) ≤ sz
      omega
    · show false = true ↔ (0 : Int) = sz
      simp
      omega
  | addL x y hr ih => exact ih
  | @rem s1 x y hr ih =>
    unfold Ship.remove
    split
    · exact ih
    · exact ih
  | hitS hr ih => exact hitShip_inv ih
  | hitQ x y hr ih => exact isHit_inv x y ih

/-- C9: for every ship built from a fleet record with length at least 1,
after any sequence of placement and attack operations the hit count never
exceeds the length and the sunk flag holds exactly when the hit count equals
the length. -/
theorem ship_hit_invariant (n : String) (sz : Int) (sym : Char) (s : Ship)
    (hsz : 1 ≤ sz) (h : SReach (Ship.init n sz sym) s) :
    s.hitCount ≤ s.size ∧ (s.sunk = true ↔ s.hitCount = s.size) :=
  ⟨(ship_invariant_aux hsz h).2.1, (ship_invariant_aux hsz h).2.2⟩

/-- Witness for C9 at the freshly created destroyer. -/
theorem ship_hit_invariant_witness :
    1 ≤ (1 : Int) ∧
    ((Ship.init "D" 1 'D').hitCount ≤ (Ship.init "D" 1 'D').size ∧
      ((Ship.init "D" 1 'D').sunk = true ↔
        (Ship.init "D" 1 'D').hitCount = (Ship.init "D" 1 'D').size)) :=
  ⟨by decide, ship_hit_invariant "D" 1 'D' (Ship.init "D" 1 'D') (by decide) SReach.refl⟩

theorem next_invP {s : PState} (h : InvP s) : InvP (PlayerBoard.next s) := by
  unfold PlayerBoard.next
  split
  · exact h
  · exact h

theorem pyIdx_pair_ne {x y px py : Int} {rx ry qx qy : Fin 10}
    (hbx : inB x y) (hbp : inB px py)
    (h1 : pyIdx x = some rx) (h2 : pyIdx y = some ry)
    (h3 : pyIdx px = some qx) (h4 : pyIdx py = some qy)
    (hne : ¬(px = x ∧ py = y)) : ¬(qy = ry ∧ qx = rx) := by
  obtain ⟨hx0, hx1, hy0, hy1⟩ := hbx
  obtain ⟨hp0, hp1, hq0, hq1⟩ := hbp
  rw [pyIdx_of_inb hx0 hx1] at h1
  rw [pyIdx_of_inb hy0 hy1] at h2
  rw [pyIdx_of_inb hp0 hp1] at h3
  rw [pyIdx_of_inb hq0 hq1] at h4
  cases h1; cases h2; cases h3; cases h4
  rintro ⟨ha, hb⟩
  simp only [Fin.mk.injEq] at ha hb
  exact hne ⟨by omega, by omega⟩

theorem marked_cell_ne {s : PState} {x y : Int} {ry rx : Fin 10}
    (hinv : InvP s)
    (hry : pyIdx y = some ry) (hrx : pyIdx x = some rx)
    (hE : s.board ry rx = 'E') :
    ∀ sh ∈ s.ships, ∀ p ∈ sh.location, p ≠ (x, y) := by
  intro sh hsh p hp heq
  obtain ⟨hib, hdis, hmark, hsym⟩ := hinv
  have hm := hmark sh hsh p hp
  rw [heq] at hm
  rw [pyGet_eq hry hrx, hE] at hm
  exact hsym sh hsh (Option.some.inj hm).symm

theorem add_commit_inv {s : PState} {x y : Int} {cs : Ship} {ry rx : Fin 10}
    (hinv : InvP s) (hb : inB x y)
    (hry : pyIdx y = some ry) (hrx : pyIdx x = some rx)
    (hcs : s.ships.get? s.currentShip = some cs)
    (hE : s.board ry rx = 'E') :
    InvP { s with
      board := fun i j => if i = ry ∧ j = rx then cs.symbol else s.board i j,
      ships := s.ships.set s.currentShip (cs.addLocation x y) } := by
  obtain ⟨hib, hdis, hmark, hsym⟩ := hinv
  have hmem : cs ∈ s.ships := List.get?_mem hcs
  have hlt : s.currentShip < s.ships.length := by
    rcases List.get?_eq_some.mp hcs with ⟨h, -⟩
    exact h
  have hcell := marked_cell_ne ⟨hib, hdis, hmark, hsym⟩ hry hrx hE
  have hkeep : ∀ sh ∈ s.ships, ∀ p ∈ sh.location,
      pyGet (fun i j => if i = ry ∧ j = rx then cs.symbol else s.board i j) p.2 p.1 =
        some sh.symbol := by
    intro sh hsh p hp
    have hbp : inB p.1 p.2 := hib sh hsh p hp
    obtain ⟨hp0, hp1, hq0, hq1⟩ := hbp
    have hq3 : pyIdx p.1 = some ⟨p.1.toNat, by omega⟩ := pyIdx_of_inb hp0 hp1
    have hq4 : pyIdx p.2 = some ⟨p.2.toNat, by omega⟩ := pyIdx_of_inb hq0 hq1
    rw [pyGet_eq hq4 hq3]
    dsimp only []
    have hne := pyIdx_pair_ne hb (⟨hp0, hp1, hq0, hq1⟩ : inB p.1 p.2) hrx hry hq3 hq4
      (by
        intro hpe
        exact hcell sh hsh p hp (Prod.ext hpe.1 hpe.2))
    rw [if_neg hne]
    have hm2 := hmark sh hsh p hp
    rw [pyGet_eq hq4 hq3] at hm2
    exact hm2
  refine ⟨?_, ?_, ?_, ?_⟩
  · -- shipsInBounds
    intro sh hsh p hp
    dsimp only [] at hsh
    rcases List.mem_or_eq_of_mem_set hsh with hold | hnew
    · exact hib sh hold p hp
    · subst hnew
      rcases List.mem_append.mp hp with hps | hpn
      · exact hib cs hmem p hps
      · rw [List.mem_singleton.mp hpn]
        exact hb
  · -- shipsDisjoint
    intro i j a b hij hga hgb p hpa hpb
    dsimp only [] at hga hgb
    by_cases hi : i = s.currentShip
    · have ha2 : a = cs.addLocation x y := by
        rw [hi, List.get?_set_eq_of_lt _ hlt] at hga
        cases hga; rfl
      have hcsi : s.ships.get? i = some cs := by rw [hi]; exact hcs
      have hij2 : s.currentShip ≠ j := by rw [← hi]; exact hij
      rw [List.get?_set_ne _ _ hij2] at hgb
      have hbm : b ∈ s.ships := List.get?_mem hgb
      subst ha2
      rcases List.mem_append.mp hpa with hps | hpn
      · exact hdis i j cs b hij hcsi hgb p hps hpb
      · rw [List.mem_singleton.mp hpn] at hpb
        exact hcell b hbm (x, y) hpb rfl
    · have hi2 : s.currentShip ≠ i := fun he => hi he.symm
      rw [List.get?_set_ne _ _ hi2] at hga
      have ham : a ∈ s.ships := List.get?_mem hga
      by_cases hj : j = s.currentShip
      · have hb2 : b = cs.addLocation x y := by
          rw [hj, List.get?_set_eq_of_lt _ hlt] at hgb
          cases hgb; rfl
        have hcsj : s.ships.get? j = some cs := by rw [hj]; exact hcs
        subst hb2
        rcases List.mem_append.mp hpb with hps | hpn
        · exact hdis i j a cs hij hga hcsj p hpa hps
        · rw [List.mem_singleton.mp hpn] at hpa
          exact hcell a ham (x, y) hpa rfl
      · have hj2 : s.currentShip ≠ j := fun he => hj he.symm
        rw [List.get?_set_ne _ _ hj2] at hgb
        exact hdis i j a b hij hga hgb p hpa hpb
  · -- shipsMarked
    intro sh hsh p hp
    dsimp only [] at hsh
    rcases List.mem_or_eq_of_mem_set hsh with hold | hnew
    · exact hkeep sh hold p hp
    · subst hnew
      rcases List.mem_append.mp hp with hps | hpn
      · exact hkeep cs hmem p hps
      · rw [List.mem_singleton.mp hpn]
        rw [pyGet_eq hry hrx]
        dsimp only []
        rw [if_pos ⟨rfl, rfl⟩]
        rfl
  · -- symbolsOK
    intro sh hsh
    dsimp only [] at hsh
    rcases List.mem_or_eq_of_mem_set hsh with hold | hnew
    · exact hsym sh hold
    · subst hnew
      exact hsym cs hmem

theorem add_inv {s : PState} {x y : Int} {e : Err} {s2 : PState}
    (hinv : InvP s) (hb : inB x y)
    (h : PlayerBoard.add s x y = some (e, s2)) : InvP s2 := by
  obtain ⟨hx0, hx1, hy0, hy1⟩ := hb
  have hry : pyIdx y = some ⟨y.toNat, by omega⟩ := pyIdx_of_inb hy0 hy1
  have hrx : pyIdx x = some ⟨x.toNat, by omega⟩ := pyIdx_of_inb hx0 hx1
  unfold PlayerBoard.add at h
  cases hcs : s.ships.get? s.currentShip with
  | none =>
    rw [hcs] at h
    simp only [Option.pure_def, Option.bind_eq_bind, Option.none_bind] at h
    cases h
  | some cs =>
    rw [hcs] at h
    simp only [Option.pure_def, Option.bind_eq_bind, Option.some_bind] at h
    split at h
    · cases h; exact hinv
    · rw [pyGet_eq hry hrx] at h
      simp only [Option.some_bind] at h
      by_cases hne : s.board ⟨y.toNat, by omega⟩ ⟨x.toNat, by omega⟩ ≠ 'E'
      · rw [if_pos hne] at h; cases h; exact hinv
      · rw [if_neg hne] at h
        by_cases hok : cs.verifyLocation x y = Err.NO_ERROR
        · rw [if_pos hok] at h
          rw [pySet_eq hry hrx] at h
          simp only [Option.some_bind] at h
          have hE : s.board ⟨y.toNat, by omega⟩ ⟨x.toNat, by omega⟩ = 'E' :=
            not_not.mp hne
          by_cases hall : (cs.addLocation x y).allSet = true
          · rw [if_pos hall] at h
            cases h
            exact next_invP (add_commit_inv hinv ⟨hx0, hx1, hy0, hy1⟩ hry hrx hcs hE)
          · rw [if_neg hall] at h
            cases h
            exact add_commit_inv hinv ⟨hx0, hx1, hy0, hy1⟩ hry hrx hcs hE
        · rw [if_neg hok] at h; cases h; exact hinv

theorem addC_inv {s : CState} {x y : Int} {e : Err} {s2 : CState}
    (hinv : InvP s.base) (hb : inB x y)
    (h : ComputerBoard.addC s x y = some (e, s2)) : InvP s2.base := by
  unfold ComputerBoard.addC at h
  cases ha : PlayerBoard.add s.base x y with
  | none => rw [ha] at h; cases h
  | some p =>
    obtain ⟨e2, sb⟩ := p
    rw [ha] at h
    simp only [Option.map_some'] at h
    cases h
    exact add_inv hinv hb ha

theorem addRun_inv : ∀ {n : Nat} {s : CState} {x y o : Int} {s2 : CState},
    InvP s.base →
    (∀ m, m < n → inB (runPos o (x, y) m).1 (runPos o (x, y) m).2) →
    ComputerBoard.addRun s x y o n = some s2 → InvP s2.base := by
  intro n
  induction n with
  | zero =>
    intro s x y o s2 hinv hbnd h
    unfold ComputerBoard.addRun at h
    cases h
    exact hinv
  | succ m ih =>
    intro s x y o s2 hinv hbnd h
    unfold ComputerBoard.addRun at h
    cases ha : ComputerBoard.addC s x y with
    | none =>
      rw [ha] at h
      simp only [Option.pure_def, Option.bind_eq_bind, Option.none_bind] at h
      cases h
    | some p =>
      obtain ⟨e1, s1⟩ := p
      rw [ha] at h
      simp only [Option.pure_def, Option.bind_eq_bind, Option.some_bind] at h
      have hb0 : inB x y := hbnd 0 (by omega)
      have hinv1 := addC_inv hinv hb0 ha
      exact ih hinv1 (fun m2 hm2 => hbnd (m2 + 1) (by omega)) h

theorem cpDir_sub {cond : Bool} {ch : Int} {cell : Option Char}
    {choices cq : List Int}
    (h : ComputerBoard.cpDir cond ch cell choices = some (some cq)) :
    cq ⊆ choices ∧ (choices.Nodup → cq.Nodup) := by
  unfold ComputerBoard.cpDir at h
  cases cond with
  | true =>
    rw [if_pos rfl] at h
    cases h
    exact ⟨List.erase_subset ch choices, fun hn => hn.erase ch⟩
  | false =>
    rw [if_neg Bool.false_ne_true] at h
    cases cell with
    | none => cases h
    | some c =>
      dsimp only [] at h
      by_cases hc : c ≠ 'E'
      · rw [if_pos hc] at h; cases h
      · rw [if_neg hc] at h
        cases h
        exact ⟨fun a ha => ha, fun hn => hn⟩

theorem cpDir_rm {ch : Int} {cell : Option Char} {choices cq : List Int}
    (h : ComputerBoard.cpDir true ch cell choices = some (some cq))
    (hn : choices.Nodup) : ch ∉ cq := by
  unfold ComputerBoard.cpDir at h
  rw [if_pos rfl] at h
  cases h
  intro hmem
  exact ((hn.mem_erase_iff).mp hmem).1 rfl

theorem cpLoop_cons {b : Board} {x y : Int} {i j : Nat} {rest : List (Nat × Nat)}
    {choices res : List Int}
    (h : ComputerBoard.cpLoop b x y ((i, j) :: rest) choices = some res) :
    res = [] ∨
      ∃ c1 c2 c3 c4,
        ComputerBoard.cpDir (x + i ≥ 10) 1 (pyGet b y (x + i)) choices = some (some c1) ∧
        ComputerBoard.cpDir (x - i < 0) 2 (pyGet b y (x - 1)) c1 = some (some c2) ∧
        ComputerBoard.cpDir (y + j ≥ 10) 3 (pyGet b (y + j) x) c2 = some (some c3) ∧
        ComputerBoard.cpDir (y - j < 0) 4 (pyGet b (y - j) x) c3 = some (some c4) ∧
        ComputerBoard.cpLoop b x y rest c4 = some res := by
  unfold ComputerBoard.cpLoop at h
  cases h1 : ComputerBoard.cpDir (x + i ≥ 10) 1 (pyGet b y (x + i)) choices with
  | none => rw [h1] at h; cases h
  | some o1 =>
    rw [h1] at h
    cases o1 with
    | none => dsimp only [] at h; cases h; exact Or.inl rfl
    | some c1 =>
      dsimp only [] at h
      cases h2 : ComputerBoard.cpDir (x - i < 0) 2 (pyGet b y (x - 1)) c1 with
      | none => rw [h2] at h; cases h
      | some o2 =>
        rw [h2] at h
        cases o2 with
        | none => dsimp only [] at h; cases h; exact Or.inl rfl
        | some c2 =>
          dsimp only [] at h
          cases h3 : ComputerBoard.cpDir (y + j ≥ 10) 3 (pyGet b (y + j) x) c2 with
          | none => rw [h3] at h; cases h
          | some o3 =>
            rw [h3] at h
            cases o3 with
            | none => dsimp only [] at h; cases h; exact Or.inl rfl
            | some c3 =>
              dsimp only [] at h
              cases h4 : ComputerBoard.cpDir (y - j < 0) 4 (pyGet b (y - j) x) c3 with
              | none => rw [h4] at h; cases h
              | some o4 =>
                rw [h4] at h
                cases o4 with
                | none => dsimp only [] at h; cases h; exact Or.inl rfl
                | some c4 =>
                  dsimp only [] at h
                  exact Or.inr ⟨c1, c2, c3, c4, rfl, h2, h3, h4, h⟩

theorem cpLoop_sub {b : Board} {x y : Int} :
    ∀ {pairs : List (Nat × Nat)} {choices res : List Int},
      ComputerBoard.cpLoop b x y pairs choices = some res →
      res ⊆ choices ∧ (choices.Nodup → res.Nodup) := by
  intro pairs
  induction pairs with
  | nil =>
    intro choices res h
    unfold ComputerBoard.cpLoop at h
    cases h
    exact ⟨fun a ha => ha, fun hn => hn⟩
  | cons pr rest ih =>
    intro choices res h
    obtain ⟨i, j⟩ := pr
    rcases cpLoop_cons h with rfl | ⟨c1, c2, c3, c4, h1, h2, h3, h4, h5⟩
    · exact ⟨List.nil_subset _, fun _ => List.nodup_nil⟩
    · have s1 := cpDir_sub h1
      have s2 := cpDir_sub h2
      have s3 := cpDir_sub h3
      have s4 := cpDir_sub h4
      have s5 := ih h5
      exact ⟨s5.1.trans (s4.1.trans (s3.1.trans (s2.1.trans s1.1))),
        fun hn => s5.2 (s4.2 (s3.2 (s2.2 (s1.2 hn))))⟩

theorem cpLoop_rm1 {b : Board} {x y : Int} :
    ∀ {pairs : List (Nat × Nat)} {choices res : List Int} {i j : Nat},
      ComputerBoard.cpLoop b x y pairs choices = some res → choices.Nodup →
      (i, j) ∈ pairs → x + i ≥ 10 → (1 : Int) ∉ res := by
  intro pairs
  induction pairs with
  | nil => intro choices res i j h hn hm hc; cases hm
  | cons pr rest ih =>
    intro choices res i j h hn hm hc
    obtain ⟨i0, j0⟩ := pr
    rcases cpLoop_cons h with rfl | ⟨c1, c2, c3, c4, h1, h2, h3, h4, h5⟩
    · exact List.not_mem_nil 1
    · rcases List.mem_cons.mp hm with heq | hmr
      · injection heq with hi hj
        subst hi; subst hj
        rw [decide_eq_true hc] at h1
        have hrm := cpDir_rm h1 hn
        intro hmem
        exact hrm ((cpDir_sub h2).1 ((cpDir_sub h3).1 ((cpDir_sub h4).1
          ((cpLoop_sub h5).1 hmem))))
      · have hn4 : c4.Nodup :=
          (cpDir_sub h4).2 ((cpDir_sub h3).2 ((cpDir_sub h2).2 ((cpDir_sub h1).2 hn)))
        exact ih h5 hn4 hmr hc

theorem cpLoop_rm2 {b : Board} {x y : Int} :
    ∀ {pairs : List (Nat × Nat)} {choices res : List Int} {i j : Nat},
      ComputerBoard.cpLoop b x y pairs choices = some res → choices.Nodup →
      (i, j) ∈ pairs → x - i < 0 → (2 : Int) ∉ res := by
  intro pairs
  induction pairs with
  | nil => intro choices res i j h hn hm hc; cases hm
  | cons pr rest ih =>
    intro choices res i j h hn hm hc
    obtain ⟨i0, j0⟩ := pr
    rcases cpLoop_cons h with rfl | ⟨c1, c2, c3, c4, h1, h2, h3, h4, h5⟩
    · exact List.not_mem_nil 2
    · rcases List.mem_cons.mp hm with heq | hmr
      · injection heq with hi hj
        subst hi; subst hj
        rw [decide_eq_true hc] at h2
        have hn1 : c1.Nodup := (cpDir_sub h1).2 hn
        have hrm := cpDir_rm h2 hn1
        intro hmem
        exact hrm ((cpDir_sub h3).1 ((cpDir_sub h4).1 ((cpLoop_sub h5).1 hmem)))
      · have hn4 : c4.Nodup :=
          (cpDir_sub h4).2 ((cpDir_sub h3).2 ((cpDir_sub h2).2 ((cpDir_sub h1).2 hn)))
        exact ih h5 hn4 hmr hc

theorem cpLoop_rm3 {b : Board} {x y : Int} :
    ∀ {pairs : List (Nat × Nat)} {choices res : List Int} {i j : Nat},
      ComputerBoard.cpLoop b x y pairs choices = some res → choices.Nodup →
      (i, j) ∈ pairs → y + j ≥ 10 → (3 : Int) ∉ res := by
  intro pairs
  induction pairs with
  | nil => intro choices res i j h hn hm hc; cases hm
  | cons pr rest ih =>
    intro choices res i j h hn hm hc
    obtain ⟨i0, j0⟩ := pr
    rcases cpLoop_cons h with rfl | ⟨c1, c2, c3, c4, h1, h2, h3, h4, h5⟩
    · exact List.not_mem_nil 3
    · rcases List.mem_cons.mp hm with heq | hmr
      · injection heq with hi hj
        subst hi; subst hj
        rw [decide_eq_true hc] at h3
        have hn2 : c2.Nodup := (cpDir_sub h2).2 ((cpDir_sub h1).2 hn)
        have hrm := cpDir_rm h3 hn2
        intro hmem
        exact hrm ((cpDir_sub h4).1 ((cpLoop_sub h5).1 hmem))
      · have hn4 : c4.Nodup :=
          (cpDir_sub h4).2 ((cpDir_sub h3).2 ((cpDir_sub h2).2 ((cpDir_sub h1).2 hn)))
        exact ih h5 hn4 hmr hc

theorem cpLoop_rm4 {b : Board} {x y : Int} :
    ∀ {pairs : List (Nat × Nat)} {choices res : List Int} {i j : Nat},
      ComputerBoard.cpLoop b x y pairs choices = some res → choices.Nodup →
      (i, j) ∈ pairs → y - j < 0 → (4 : Int) ∉ res := by
  intro pairs
  induction pairs with
  | nil => intro choices res i j h hn hm hc; cases hm
  | cons pr rest ih =>
    intro choices res i j h hn hm hc
    obtain ⟨i0, j0⟩ := pr
    rcases cpLoop_cons h with rfl | ⟨c1, c2, c3, c4, h1, h2, h3, h4, h5⟩
    · exact List.not_mem_nil 4
    · rcases List.mem_cons.mp hm with heq | hmr
      · injection heq with hi hj
        subst hi; subst hj
        rw [decide_eq_true hc] at h4
        have hn3 : c3.Nodup :=
          (cpDir_sub h3).2 ((cpDir_sub h2).2 ((cpDir_sub h1).2 hn))
        have hrm := cpDir_rm h4 hn3
        intro hmem
        exact hrm ((cpLoop_sub h5).1 hmem)
      · have hn4 : c4.Nodup :=
          (cpDir_sub h4).2 ((cpDir_sub h3).2 ((cpDir_sub h2).2 ((cpDir_sub h1).2 hn)))
        exact ih h5 hn4 hmr hc

theorem cpPairs_mem {n i j : Nat} :
    (i, j) ∈ ComputerBoard.cpPairs n ↔ i < n ∧ j < n := by
  simp [ComputerBoard.cpPairs, List.mem_flatMap, List.mem_map, List.mem_range]

theorem runPos_1 (c : Int × Int) (m : Nat) : runPos 1 c m = (c.1 + m, c.2) := by
  induction m generalizing c with
  | zero => simp [runPos]
  | succ k ihq =>
    have hstep : runPos 1 c (k + 1) = runPos 1 (c.1 + 1, c.2) k := rfl
    rw [hstep, ihq]
    simp [Prod.ext_iff]
    ring

theorem runPos_2 (c : Int × Int) (m : Nat) : runPos 2 c m = (c.1 - m, c.2) := by
  induction m generalizing c with
  | zero => simp [runPos]
  | succ k ihq =>
    have hstep : runPos 2 c (k + 1) = runPos 2 (c.1 - 1, c.2) k := rfl
    rw [hstep, ihq]
    simp [Prod.ext_iff]
    ring

theorem runPos_3 (c : Int × Int) (m : Nat) : runPos 3 c m = (c.1, c.2 + m) := by
  induction m generalizing c with
  | zero => simp [runPos]
  | succ k ihq =>
    have hstep : runPos 3 c (k + 1) = runPos 3 (c.1, c.2 + 1) k := rfl
    rw [hstep, ihq]
    simp [Prod.ext_iff]
    ring

theorem runPos_4 (c : Int × Int) (m : Nat) : runPos 4 c m = (c.1, c.2 - m) := by
  induction m generalizing c with
  | zero => simp [runPos]
  | succ k ihq =>
    have hstep : runPos 4 c (k + 1) = runPos 4 (c.1, c.2 - 1) k := rfl
    rw [hstep, ihq]
    simp [Prod.ext_iff]
    ring

theorem checkPos_bounds {s : CState} {x y : Int} {ch : List Int} {sh : Ship}
    (hcp : ComputerBoard.checkPos s x y = some ch)
    (hcs : PlayerBoard.getCurrent s.base = Sum.inl sh)
    (hx0 : 0 ≤ x) (hx1 : x < 10) (hy0 : 0 ≤ y) (hy1 : y < 10)
    {o : Int} (ho : o ∈ ch) :
    ∀ m, m < sh.size.toNat → inB (runPos o (x, y) m).1 (runPos o (x, y) m).2 := by
  have hry : pyIdx y = some ⟨y.toNat, by omega⟩ := pyIdx_of_inb hy0 hy1
  have hrx : pyIdx x = some ⟨x.toNat, by omega⟩ := pyIdx_of_inb hx0 hx1
  unfold ComputerBoard.checkPos at hcp
  rw [hcs] at hcp
  simp only [Option.pure_def, Option.bind_eq_bind, Option.some_bind] at hcp
  rw [pyGet_eq hry hrx] at hcp
  simp only [Option.some_bind] at hcp
  by_cases hcE : s.base.board ⟨y.toNat, by omega⟩ ⟨x.toNat, by omega⟩ ≠ 'E'
  · rw [if_pos hcE] at hcp
    cases hcp
    cases ho
  · rw [if_neg hcE] at hcp
    have hnodup : ([1, 2, 3, 4] : List Int).Nodup := by decide
    have hmem := (cpLoop_sub hcp).1 ho
    intro m hm
    have hpos : 0 < sh.size.toNat := by omega
    rcases (by simpa using hmem : o = 1 ∨ o = 2 ∨ o = 3 ∨ o = 4) with rfl | rfl | rfl | rfl
    · rw [runPos_1]
      refine ⟨by omega, ?_, hy0, hy1⟩
      by_contra hcon
      push_neg at hcon
      exact absurd ho (cpLoop_rm1 hcp hnodup (cpPairs_mem.mpr ⟨hm, hpos⟩) (by omega))
    · rw [runPos_2]
      refine ⟨?_, by omega, hy0, hy1⟩
      by_contra hcon
      push_neg at hcon
      exact absurd ho (cpLoop_rm2 hcp hnodup (cpPairs_mem.mpr ⟨hm, hpos⟩) (by omega))
    · rw [runPos_3]
      refine ⟨hx0, hx1, by omega, ?_⟩
      by_contra hcon
      push_neg at hcon
      exact absurd ho (cpLoop_rm3 hcp hnodup (cpPairs_mem.mpr ⟨hpos, hm⟩) (by omega))
    · rw [runPos_4]
      refine ⟨hx0, hx1, ?_, by omega⟩
      by_contra hcon
      push_neg at hcon
      exact absurd ho (cpLoop_rm4 hcp hnodup (cpPairs_mem.mpr ⟨hpos, hm⟩) (by omega))

theorem origLoop_ok {s : CState} {r : Rand} :
    ∀ {fuel k : Nat} {sx sy : Int} {ch : List Int} {k2 : Nat},
      ComputerBoard.origLoop s r k fuel = some ((sx, sy), ch, k2) →
      0 ≤ sx ∧ sx < 10 ∧ 0 ≤ sy ∧ sy < 10 ∧
        ComputerBoard.checkPos s sx sy = some ch ∧ ch ≠ [] := by
  intro fuel
  induction fuel with
  | zero => intro k sx sy ch k2 h; cases h
  | succ n ih =>
    intro k sx sy ch k2 h
    unfold ComputerBoard.origLoop at h
    dsimp only [] at h
    cases hcp : ComputerBoard.checkPos s ((r k % 10 : Nat) : Int) ((r (k + 1) % 10 : Nat) : Int) with
    | none =>
      rw [hcp] at h
      simp only [Option.pure_def, Option.bind_eq_bind, Option.none_bind] at h
      cases h
    | some ch0 =>
      rw [hcp] at h
      simp only [Option.pure_def, Option.bind_eq_bind, Option.some_bind] at h
      by_cases hch : ch0 = []
      · rw [if_pos hch] at h
        exact ih h
      · rw [if_neg hch] at h
        cases h
        refine ⟨Int.ofNat_nonneg _, ?_, Int.ofNat_nonneg _, ?_, hcp, hch⟩
        · exact_mod_cast Nat.mod_lt _ (by omega)
        · exact_mod_cast Nat.mod_lt _ (by omega)

theorem choose_mem {ch : List Int} (h : ch ≠ []) (m : Nat) :
    (ch.get? (m % ch.length)).getD 0 ∈ ch := by
  have hlen : 0 < ch.length := List.length_pos.mpr h
  have hlt : m % ch.length < ch.length := Nat.mod_lt _ hlen
  rw [List.get?_eq_get hlt]
  simp only [Option.getD_some]
  exact List.get_mem ch _ hlt

theorem placeShip_inv {r : Rand} :
    ∀ {fuel : Nat} {s : CState} {k : Nat} {s2 : CState} {k2 : Nat},
      InvP s.base →
      ComputerBoard.placeShipFuel s r k fuel = some (s2, k2) →
      InvP s2.base ∧ PlayerBoard.allSet s2.base = true := by
  intro fuel
  induction fuel with
  | zero => intro s k s2 k2 hinv h; cases h
  | succ n ih =>
    intro s k s2 k2 hinv h
    unfold ComputerBoard.placeShipFuel at h
    by_cases hall : PlayerBoard.allSet s.base = true
    · rw [if_pos hall] at h
      cases h
      exact ⟨hinv, hall⟩
    · rw [if_neg hall] at h
      cases horig : ComputerBoard.origLoop s r k (n + 1) with
      | none =>
        rw [horig] at h
        simp only [Option.pure_def, Option.bind_eq_bind, Option.none_bind] at h
        cases h
      | some res =>
        obtain ⟨⟨sx, sy⟩, ch, kk⟩ := res
        rw [horig] at h
        simp only [Option.pure_def, Option.bind_eq_bind, Option.some_bind] at h
        obtain ⟨hsx0, hsx1, hsy0, hsy1, hcp, hchne⟩ := origLoop_ok horig
        cases hcur : PlayerBoard.getCurrent s.base with
        | inr e =>
          rw [hcur] at h
          simp only [Option.pure_def, Option.bind_eq_bind, Option.none_bind] at h
          cases h
        | inl sh =>
          rw [hcur] at h
          simp only [Option.pure_def, Option.bind_eq_bind, Option.some_bind] at h
          cases har : ComputerBoard.addRun s sx sy
              ((ch.get? (r kk % ch.length)).getD 0) sh.size.toNat with
          | none =>
            rw [har] at h
            simp only [Option.pure_def, Option.bind_eq_bind, Option.none_bind] at h
            cases h
          | some s3 =>
            rw [har] at h
            simp only [Option.pure_def, Option.bind_eq_bind, Option.some_bind] at h
            have ho : (ch.get? (r kk % ch.length)).getD 0 ∈ ch := choose_mem hchne _
            have hbounds := checkPos_bounds hcp hcur hsx0 hsx1 hsy0 hsy1 ho
            have hinv3 := addRun_inv hinv hbounds har
            exact ih hinv3 h

theorem init_invP (specs : List (String × Int × Char))
    (hsym : ∀ t ∈ specs, t.2.2 ≠ 'E') :
    InvP (ComputerBoard.init (mkFleet specs)).base := by
  have hloc : ∀ sh ∈ mkFleet specs, sh.location = [] := by
    intro sh hsh
    rcases List.mem_map.mp hsh with ⟨t, -, rfl⟩
    rfl
  refine ⟨?_, ?_, ?_, ?_⟩
  · intro sh hsh p hp
    rw [hloc sh hsh] at hp
    cases hp
  · intro i j a b hij hga hgb p hpa hpb
    have ham : a ∈ mkFleet specs := List.get?_mem hga
    rw [hloc a ham] at hpa
    cases hpa
  · intro sh hsh p hp
    rw [hloc sh hsh] at hp
    cases hp
  · intro sh hsh
    rcases List.mem_map.mp hsh with ⟨t, ht, rfl⟩
    exact hsym t ht

/-- C3 (amended): for every fleet whose ship symbols differ from the
empty-cell marker 'E' and every draw sequence under which the randomized
self-placement terminates normally, the final state satisfies allSet, every
placed ship cell lies inside the 10x10 grid, and no two distinct fleet
entries share a cell. -/
theorem placeShip_sound (specs : List (String × Int × Char)) (r : Rand)
    (fuel : Nat) (s2 : CState) (k2 : Nat)
    (hsym : ∀ t ∈ specs, t.2.2 ≠ 'E')
    (h : ComputerBoard.placeShipFuel (ComputerBoard.init (mkFleet specs)) r 0 fuel =
      some (s2, k2)) :
    PlayerBoard.allSet s2.base = true ∧ shipsInBounds s2.base ∧ shipsDisjoint s2.base := by
  have hres := placeShip_inv (init_invP specs hsym) h
  exact ⟨hres.2, hres.1.1, hres.1.2.1⟩

/-- Witness for C3 at the single-destroyer fleet and the all-zero stream. -/
theorem placeShip_sound_witness :
    (∀ t ∈ [("Destroyer", (2 : Int), 'D')], t.2.2 ≠ 'E') ∧
    (PlayerBoard.allSet c3wState.base = true ∧ shipsInBounds c3wState.base ∧
      shipsDisjoint c3wState.base) :=
  ⟨by decide, placeShip_sound [("Destroyer", 2, 'D')] r0 5 c3wState 3 (by decide) (by decide)⟩

/-- C3 counterexample: with the two-ship fleet whose symbols are the
empty-cell marker 'E' and the all-zero draw stream, placeShip terminates
with allSet true but both ships occupy the same two cells, refuting the
claimed no-overlap guarantee for every generated fleet. -/
theorem placeShip_overlap_counterexample :
    ComputerBoard.placeShipFuel q0 r0 0 5 = some (q3State, 6) ∧
    PlayerBoard.allSet q3State.base = true ∧
    q3State.base.ships.map (fun sh => sh.location) =
      [[(0, 0), (1, 0)], [(0, 0), (1, 0)]] ∧
    ¬shipsDisjoint q3State.base := by
  refine ⟨by decide, by decide, by decide, ?_⟩
  intro hd
  exact hd 0 1 (Ship.init "A" 2 'E' |>.addLocation 0 0 |>.addLocation 1 0)
    (Ship.init "B" 2 'E' |>.addLocation 0 0 |>.addLocation 1 0)
    (by decide) (by decide) (by decide) (0, 0) (by decide) (by decide)

end Battleship